import Mathlib

/-! Shallow embedding of `scripts/parse_latex_publications.py` and
`scripts/clean_publications.py`.  Python strings are modelled as `List Char`;
each `re.sub` / `re.search` / `str.replace` call is modelled by an explicit
left-to-right scan that follows the regular expression's matching semantics
(leftmost match, greedy quantifiers, non-overlapping substitution). -/

namespace LabPubs

/-- Characters of Python's whitespace class (ASCII range), used both by the
regex class `\s` and by `str.strip()`. -/
def isWs (c : Char) : Bool :=
  c = ' ' || c = '\t' || c = '\n' || c = '\r' || c = '\x0b' || c = '\x0c'

/-- ASCII decimal digits, the regex class `\d`. -/
def isDigitC (c : Char) : Bool := '0' ≤ c && c ≤ '9'

/-- Shorthand turning a string literal into the `List Char` model. -/
def str (s : String) : List Char := s.toList

/-- Python substring containment `pat in l`. -/
def containsSub (pat : List Char) : List Char → Bool
  | [] => pat.isEmpty
  | c :: cs => pat.isPrefixOf (c :: cs) || containsSub pat cs

/-- Python `str.strip()`: drop whitespace from both ends. -/
def pyStrip (l : List Char) : List Char :=
  (((l.dropWhile isWs).reverse).dropWhile isWs).reverse

/-- Python `str.lower()` on the character-list model. -/
def lowerL (l : List Char) : List Char := l.map Char.toLower

/-- One generic fuelled substitution pass: at each position, if `test` accepts
the current suffix, the match is consumed via `skip` and `emit` is produced;
otherwise one character is copied.  The fuel bounds the number of positions
examined; every step consumes at least one input character, so fuel equal to
the input length is always sufficient. -/
def sub1 (test : List Char → Bool) (skip : List Char → List Char)
    (emit : List Char) : Nat → List Char → List Char
  | 0, l => l
  | _ + 1, [] => []
  | n + 1, c :: cs =>
    if test (c :: cs) then emit ++ sub1 test skip emit n (skip (c :: cs))
    else c :: sub1 test skip emit n cs

/-- Replacement of every non-overlapping occurrence of the literal `pat` by
`repl`, scanning left to right: Python `str.replace` and `re.sub` on a
literal pattern. -/
def replaceWith (pat repl l : List Char) : List Char :=
  sub1 (fun m => pat.isPrefixOf m) (fun m => m.drop pat.length) repl l.length l

/-- Removal of every occurrence of the literal `pat`. -/
def replaceAll (pat l : List Char) : List Char := replaceWith pat [] l

/-- Match of the pattern `\bf\s+` at the head of the suffix. -/
def testBf (l : List Char) : Bool :=
  match l with
  | '\\' :: 'b' :: 'f' :: c :: _ => isWs c
  | _ => false

/-- Consumption of the greedy match of `\bf\s+`. -/
def skipBf (l : List Char) : List Char := (l.drop 3).dropWhile isWs

/-- Source line 192: `re.sub(r'\\bf\s+', '', text)`. -/
def rmBf (l : List Char) : List Char := sub1 testBf skipBf [] l.length l

/-- Match of the pattern `\it\s+` at the head of the suffix. -/
def testIt (l : List Char) : Bool :=
  match l with
  | '\\' :: 'i' :: 't' :: c :: _ => isWs c
  | _ => false

/-- Consumption of the greedy match of `\it\s+`. -/
def skipIt (l : List Char) : List Char := (l.drop 3).dropWhile isWs

/-- Source line 193: `re.sub(r'\\it\s+', '', text)`. -/
def rmIt (l : List Char) : List Char := sub1 testIt skipIt [] l.length l

/-- Source line 194: `re.sub(r'\\textsl', '', text)`. -/
def rmTextsl (l : List Char) : List Char := replaceAll (str "\\textsl") l

/-- Source line 196: `re.sub(r'\$\^\\dagger\$', '†', text)`. -/
def rmDag1 (l : List Char) : List Char := replaceWith (str "$^\\dagger$") (str "†") l

/-- Source line 197: `re.sub(r'\^\\dagger', '†', text)`. -/
def rmDag2 (l : List Char) : List Char := replaceWith (str "^\\dagger") (str "†") l

/-- Source line 198: `re.sub(r'\\dagger', '†', text)`. -/
def rmDag3 (l : List Char) : List Char := replaceWith (str "\\dagger") (str "†") l

/-- Source line 199: `re.sub(r'[\{\}]', '', text)`. -/
def rmBraces (l : List Char) : List Char :=
  l.filter (fun c => !(c = '\x7b' || c = '\x7d'))

/-- Match of `\$\^(\*|\d+)\$` at the head of the suffix: `$^*$`, or `$^`
followed by a nonempty digit run whose first non-digit continuation is `$`
(the greedy `\d+` has no successful backtracking here because `$` is not a
digit). -/
def testMathSup (l : List Char) : Bool :=
  match l with
  | '$' :: '^' :: '*' :: '$' :: _ => true
  | '$' :: '^' :: rest =>
    (match rest.dropWhile isDigitC with
     | '$' :: _ => !(rest.takeWhile isDigitC).isEmpty
     | _ => false)
  | _ => false

/-- Consumption of the match of `\$\^(\*|\d+)\$`. -/
def skipMathSup (l : List Char) : List Char :=
  match l with
  | '$' :: '^' :: '*' :: '$' :: rest => rest
  | '$' :: '^' :: rest => (rest.dropWhile isDigitC).drop 1
  | _ => l

/-- Source line 200: `re.sub(r'\$\^(\*|\d+)\$', '', text)`. -/
def rmMathSup (l : List Char) : List Char := sub1 testMathSup skipMathSup [] l.length l

/-- Match of `\^(\*|\d+)` at the head of the suffix. -/
def testSup (l : List Char) : Bool :=
  match l with
  | '^' :: '*' :: _ => true
  | '^' :: rest => !(rest.takeWhile isDigitC).isEmpty
  | _ => false

/-- Consumption of the match of `\^(\*|\d+)` (greedy digit run). -/
def skipSup (l : List Char) : List Char :=
  match l with
  | '^' :: '*' :: rest => rest
  | '^' :: rest => rest.dropWhile isDigitC
  | _ => l

/-- Source line 201: `re.sub(r'\^(\*|\d+)', '', text)`. -/
def rmSup (l : List Char) : List Char := sub1 testSup skipSup [] l.length l

/-- Source line 202: `re.sub(r'\\', '', text)`. -/
def rmBackslash (l : List Char) : List Char := l.filter (fun c => !(c = '\\'))

/-- Match of `\s+` at the head of the suffix. -/
def testWs (l : List Char) : Bool :=
  match l with
  | c :: _ => isWs c
  | _ => false

/-- Consumption of the greedy match of `\s+`. -/
def skipWs (l : List Char) : List Char :=
  match l with
  | _ :: cs => cs.dropWhile isWs
  | [] => []

/-- Source line 203: `re.sub(r'\s+', ' ', text)`. -/
def collapseWs (l : List Char) : List Char := sub1 testWs skipWs [' '] l.length l

/-- The `clean_tex` normalizer, parse_latex_publications.py lines 190-204:
the eleven substitution passes in source order followed by `strip()`. -/
def clean_tex (l : List Char) : List Char :=
  pyStrip (collapseWs (rmBackslash (rmSup (rmMathSup (rmBraces
    (rmDag3 (rmDag2 (rmDag1 (rmTextsl (rmIt (rmBf l)))))))))))

/-- A parsed publication record (the JSON object built at lines 175-183). -/
structure Rec where
  year : Nat
  title : List Char
  authors : List Char
  venue : List Char
  doi : List Char
  note : List Char
  type : List Char
deriving Repr, DecidableEq

/-- Search for `\(mypub|mybpub|newpub|pub)` (line 84): leftmost position wins
and, at a given position, alternatives are tried in written order.  Returns
`is_newpub` together with the suffix after the match end (the scan start for
argument extraction); `none` models a missing macro match, in which case the
scan starts at offset 0. -/
def findCmd : List Char → Option (Bool × List Char)
  | [] => none
  | c :: cs =>
    if c = '\\' then
      if (str "mypub").isPrefixOf cs then some (false, cs.drop 5)
      else if (str "mybpub").isPrefixOf cs then some (false, cs.drop 6)
      else if (str "newpub").isPrefixOf cs then some (true, cs.drop 6)
      else if (str "pub").isPrefixOf cs then some (false, cs.drop 3)
      else findCmd cs
    else findCmd cs

/-- Resolution of `is_newpub` and the scan start (lines 83-93). -/
def scanStart (l : List Char) : Bool × List Char :=
  match findCmd l with
  | some (b, rest) => (b, rest)
  | none => (false, l)

/-- Result of the stack-based brace scan: the collected arguments, the
unconsumed tail `raw_item[scan_idx:]`, and the final brace depth. -/
structure ExtractRes where
  args : List (List Char)
  tail : List Char
  depth : Int
deriving Repr, DecidableEq

/-- The while loop of lines 95-116: depth-counting brace scan collecting up
to 3 top-level brace groups.  State: remaining input, `depth`, `in_arg`,
`current_arg`, `args`. -/
def extractLoop : List Char → Int → Bool → List Char → List (List Char) → ExtractRes
  | [], d, _, _, args => ⟨args, [], d⟩
  | c :: cs, d, b, cur, args =>
    if 3 ≤ args.length then ⟨args, c :: cs, d⟩
    else if c = '\x7b' then
      if d = 0 then extractLoop cs (d + 1) true cur args
      else extractLoop cs (d + 1) b (cur ++ ['\x7b']) args
    else if c = '\x7d' then
      if d - 1 = 0 then extractLoop cs (d - 1) false [] (args ++ [pyStrip cur])
      else extractLoop cs (d - 1) b (cur ++ ['\x7d']) args
    else if b then extractLoop cs d b (cur ++ [c]) args
    else extractLoop cs d b cur args

/-- Macro recognition followed by the brace scan, as run on one item span. -/
def extractArgs (l : List Char) : ExtractRes :=
  extractLoop (scanStart l).2 0 false [] []

/-- Search for `\((\d{4})\)` (lines 148 and 153): first position holding a
literal parenthesis, exactly four digits, and a closing parenthesis. -/
def yearSearch : List Char → Option Nat
  | [] => none
  | '(' :: rest =>
    (match rest with
     | a :: b :: c :: d :: ')' :: _ =>
       if isDigitC a && isDigitC b && isDigitC c && isDigitC d then
         some (1000 * (a.toNat - 48) + 100 * (b.toNat - 48) +
               10 * (c.toNat - 48) + (d.toNat - 48))
       else yearSearch rest
     | _ => yearSearch rest)
  | _ :: rest => yearSearch rest

/-- Appearance of "accepted" or "in press" in the lower-cased venue text
(line 158). -/
def acceptedMark (venue : List Char) : Bool :=
  containsSub (str "accepted") (lowerL venue) || containsSub (str "in press") (lowerL venue)

/-- Year resolution, lines 146-160: parenthesized 4-digit group in the
normalized venue, else in the tail, else 0; then the accepted / in-press
override to 2025 whenever the year is still 0. -/
def extractYear (venue tail : List Char) : Nat :=
  let y : Nat :=
    match yearSearch venue with
    | some y => y
    | none => (yearSearch tail).getD 0
  if acceptedMark venue ∧ y = 0 then 2025 else y

/-- Match of `doi:` case-insensitively at the head of the suffix. -/
def isDoiHead (l : List Char) : Bool :=
  match l with
  | a :: b :: c :: ':' :: _ =>
    (a = 'd' || a = 'D') && (b = 'o' || b = 'O') && (c = 'i' || c = 'I')
  | _ => false

/-- Python `str.rstrip('}')`: removal of every trailing right brace. -/
def rstripRB (l : List Char) : List Char :=
  (l.reverse.dropWhile (fun c => c = '\x7d')).reverse

/-- DOI resolution, lines 164-167: `re.search(r'doi:\s*(\S+)', tail, IGNORECASE)`
followed by `rstrip('}')` on the captured token; empty when absent. -/
def doiSearch : List Char → List Char
  | [] => []
  | c :: cs =>
    if isDoiHead (c :: cs) then
      let tok := (((c :: cs).drop 4).dropWhile isWs).takeWhile (fun ch => !(isWs ch))
      if tok.isEmpty then doiSearch cs else rstripRB tok
    else doiSearch cs

/-- Occurrence of a case-insensitive `doi:` marker anywhere in the text. -/
def hasDoiColon : List Char → Bool
  | [] => false
  | c :: cs => isDoiHead (c :: cs) || hasDoiColon cs

/-- Absence of a case-insensitive `doi:` marker at every scan position that
starts inside `pre`, when the text continues with `m`: the marker found in
`pre ++ m` is then the one at the head of `m`. -/
def noDoiBefore (pre m : List Char) : Bool :=
  match pre with
  | [] => true
  | _ :: ps => !(isDoiHead (pre ++ m)) && noDoiBefore ps m

/-- Match of `IF:` at the head of the suffix (case-sensitive, line 171). -/
def isIFHead (l : List Char) : Bool :=
  match l with
  | 'I' :: 'F' :: ':' :: _ => true
  | _ => false

/-- Characters of the regex class `[\d\.]`. -/
def isIFChar (c : Char) : Bool := isDigitC c || c = '.'

/-- Impact-factor note, lines 170-173: `re.search(r'IF:\s*([\d\.]+)', tail)`
produces `"IF: <number>"`; empty when absent. -/
def ifSearch : List Char → List Char
  | [] => []
  | c :: cs =>
    if isIFHead (c :: cs) then
      let num := (((c :: cs).drop 3).dropWhile isWs).takeWhile isIFChar
      if num.isEmpty then ifSearch cs else str "IF: " ++ num
    else ifSearch cs

/-- The detection substring of line 55: `r"Books \& Chapters" in raw_item`. -/
def markerDetect : List Char := str "Books \\& Chapters"

/-- The header string removed at line 57. -/
def markerHeader : List Char := str "\x7b\\bf Books \\& Chapters:\x7d"

/-- The boilerplate string removed at line 59. -/
def markerVspace : List Char := str "\\vspace\x7b24pt\x7d"

/-- The boilerplate string removed at line 60. -/
def markerHspace : List Char := str "\\hspace\x7b-0.4in\x7d"

/-- Section-header detection for one raw item (line 55). -/
def hasMarker (raw : List Char) : Bool := containsSub markerDetect raw

/-- The section state that applies from the next item on (lines 55-63). -/
def nextType (t raw : List Char) : List Char :=
  if hasMarker raw then str "book" else t

/-- Header/boilerplate removal (when the marker is present) followed by
`strip()` (lines 55-66). -/
def itemStripped (raw : List Char) : List Char :=
  let r :=
    if hasMarker raw then
      replaceAll markerHspace (replaceAll markerVspace (replaceAll markerHeader raw))
    else raw
  pyStrip r

/-- The brace-argument extraction as applied to one raw item span. -/
def itemExtract (raw : List Char) : ExtractRes := extractArgs (itemStripped raw)

/-- Record assembly from the three arguments and the unconsumed tail
(lines 123-183). -/
def mkRecord (isNew : Bool) (a0 a1 a2 tail t : List Char) : Rec :=
  let titleTex := if isNew then a1 else a0
  let authorsTex := if isNew then a0 else a1
  let venue := clean_tex a2
  { year := extractYear venue tail
    title := clean_tex titleTex
    authors := clean_tex authorsTex
    venue := venue
    doi := doiSearch tail
    note := ifSearch tail
    type := t }

/-- Result of processing one item: the section state carried to the next
item, the record appended (if any), and the console diagnostics printed. -/
structure StepRes where
  state : List Char
  record : Option Rec
  logs : List (List Char)
deriving Repr, DecidableEq

/-- One iteration of the item loop, lines 53-186: header detection and
stripping, the empty-item skip, the brace scan, the malformed-item skip with
its diagnostic, and record assembly.  The emitted record carries the state
active when the item began; the state update to `next_type` is reached only
on the malformed path and the append path (the empty-item `continue` at line
68 fires before it). -/
def processItem (t raw : List Char) : StepRes :=
  let s := itemStripped raw
  if s.isEmpty then ⟨t, none, []⟩
  else
    let pr := scanStart s
    let r := extractLoop pr.2 0 false [] []
    match r.args with
    | a0 :: a1 :: a2 :: _ => ⟨nextType t raw, some (mkRecord pr.1 a0 a1 a2 r.tail t), []⟩
    | _ => ⟨nextType t raw, none,
            [str "Skipping malformed item: " ++ s.take 50 ++ str "..."]⟩

/-- Result of a whole batch: records in file order plus diagnostics. -/
structure ParseRes where
  recs : List Rec
  logs : List (List Char)
deriving Repr, DecidableEq

/-- The item loop of `parse_latex_publications` over the list of raw item
spans produced by the `\item` split, threading the section state. -/
def parseItems : List (List Char) → List Char → ParseRes
  | [], _ => ⟨[], []⟩
  | x :: xs, t =>
    let s := processItem t x
    let r := parseItems xs s.state
    ⟨s.record.toList ++ r.recs, s.logs ++ r.logs⟩

/-- Descending insertion by year, modelling Python
`list.sort(key=year, reverse=True)` up to the order of equal keys (Python's
sort is stable; this insertion reverses ties — every property proved below
is invariant under the order of equal-year records). -/
def insertDesc (x : Rec) : List Rec → List Rec
  | [] => [x]
  | y :: ys => if x.year ≤ y.year then y :: insertDesc x ys else x :: y :: ys

/-- Descending sort by year. -/
def sortYearDesc : List Rec → List Rec
  | [] => []
  | x :: xs => insertDesc x (sortYearDesc xs)

/-- Modelled from the spec: the caller-selectable output ordering of the
assembler (spec section 3, ordering invariant).  The source offers the two
orderings through its two entry points — the parse script writes file order
(its descending sort at line 213 is present but commented out) and
`clean_publications.py` line 27 performs the descending sort — but has no
single switch; the Boolean parameter models the spec's selector. -/
def assembleOutput (descending : Bool) (recs : List Rec) : List Rec :=
  if descending then sortYearDesc recs else recs

/-- The fixed fuzzy-match substring of clean_publications.py line 11. -/
def targetFrag : List Char := str "Transcriptional dynamics of CD8+ T-cell exhaustion"

/-- Case-insensitive fuzzy title match, clean_publications.py line 14. -/
def matchesTarget (p : Rec) : Bool := containsSub (lowerL targetFrag) (lowerL p.title)

/-- The year patch of clean_publications.py lines 13-18. -/
def updateTarget (p : Rec) : Rec :=
  if matchesTarget p = true ∧ p.year ≠ 2025 then { p with year := 2025 } else p

/-- Result of the maintenance run: the rewritten list and the four printed
counts. -/
structure CleanRes where
  pubs : List Rec
  originalCount : Nat
  updatedCount : Nat
  finalCount : Nat
  removedCount : Nat
deriving Repr, DecidableEq

/-- The maintenance operation of clean_publications.py: patch the target
record's year, drop year-0 records, re-sort descending, and report the
printed counts (original size, updates applied, final size, removals). -/
def clean_publications (pubs : List Rec) : CleanRes :=
  let upd := pubs.map updateTarget
  let cleaned := upd.filter (fun p => p.year != 0)
  let final := sortYearDesc cleaned
  { pubs := final
    originalCount := pubs.length
    updatedCount := (pubs.filter (fun p => matchesTarget p && (p.year != 2025))).length
    finalCount := final.length
    removedCount := pubs.length - final.length }

/-! Helper lemmas. -/

theorem length_dropWhile_le (p : Char → Bool) (l : List Char) :
    (l.dropWhile p).length ≤ l.length := by
  induction l with
  | nil => simp
  | cons a l ih =>
    by_cases h : p a
    · simp only [List.dropWhile_cons, h, if_pos, List.length_cons]
      omega
    · simp [List.dropWhile_cons, h]

theorem dropWhile_head_no (p : Char → Bool) (l : List Char) :
    ∀ d, (l.dropWhile p).head? = some d → p d = false := by
  induction l with
  | nil => intro d hd; simp at hd
  | cons a l ih =>
    intro d hd
    by_cases h : p a
    · exact ih d (by simpa [List.dropWhile_cons, h] using hd)
    · simp [List.dropWhile_cons, h] at hd
      simpa [← hd] using h

theorem dropWhile_append_all {p : Char → Bool} {ws m : List Char}
    (h : ∀ c ∈ ws, p c = true) : (ws ++ m).dropWhile p = m.dropWhile p := by
  induction ws with
  | nil => rfl
  | cons a l ih =>
    have ha : p a = true := h a (by simp)
    simp only [List.cons_append, List.dropWhile_cons, ha, if_pos]
    exact ih (fun c hc => h c (by simp [hc]))

theorem takeWhile_append_of {q : Char → Bool} {tok rest : List Char}
    (h1 : ∀ c ∈ tok, q c = true) (h2 : ∀ c cs, rest = c :: cs → q c = false) :
    (tok ++ rest).takeWhile q = tok := by
  induction tok with
  | nil =>
    cases rest with
    | nil => rfl
    | cons c cs => simp [List.takeWhile_cons, h2 c cs rfl]
  | cons a l ih =>
    have ha : q a = true := h1 a (by simp)
    simp only [List.cons_append, List.takeWhile_cons, ha, if_pos]
    rw [ih (fun c hc => h1 c (by simp [hc]))]

theorem isPrefixOf_mem {pat m : List Char} (h : pat.isPrefixOf m = true)
    {x : Char} (hx : x ∈ pat) : x ∈ m :=
  (List.isPrefixOf_iff_prefix.mp h).subset hx

theorem containsSub_subset {pat : List Char} :
    ∀ {l : List Char}, containsSub pat l = true → ∀ x ∈ pat, x ∈ l := by
  intro l
  induction l with
  | nil =>
    intro h x hx
    unfold containsSub at h
    rw [List.isEmpty_iff] at h
    subst h
    simp at hx
  | cons c cs ih =>
    intro h x hx
    unfold containsSub at h
    rcases Bool.or_eq_true_iff.mp h with h1 | h1
    · exact isPrefixOf_mem h1 hx
    · exact List.mem_cons_of_mem c (ih h1 x hx)

theorem sub1_id (test : List Char → Bool) (skip : List Char → List Char)
    (emit : List Char) (n : Nat) (l : List Char)
    (h : ∀ m, m <:+ l → test m = false) :
    sub1 test skip emit n l = l := by
  induction n generalizing l with
  | zero => rfl
  | succ n ih =>
    cases l with
    | nil => rfl
    | cons c cs =>
      have ht : test (c :: cs) = false := h (c :: cs) (List.suffix_refl _)
      have step : sub1 test skip emit (n + 1) (c :: cs) = c :: sub1 test skip emit n cs := by
        simp [sub1, ht]
      rw [step, ih cs (fun m hm => h m (hm.trans (List.suffix_cons c cs)))]

theorem sub1_subset (test : List Char → Bool) (skip : List Char → List Char)
    (emit : List Char) (hskip : ∀ m, skip m <:+ m) (n : Nat) (l : List Char) :
    ∀ x ∈ sub1 test skip emit n l, x ∈ l ∨ x ∈ emit := by
  induction n generalizing l with
  | zero => intro x hx; exact Or.inl hx
  | succ n ih =>
    cases l with
    | nil => intro x hx; simp [sub1] at hx
    | cons c cs =>
      intro x hx
      by_cases ht : test (c :: cs)
      · simp only [sub1, ht, if_pos, List.mem_append] at hx
        rcases hx with hx | hx
        · exact Or.inr hx
        · rcases ih (skip (c :: cs)) x hx with h1 | h1
          · exact Or.inl ((hskip (c :: cs)).subset h1)
          · exact Or.inr h1
      · simp only [sub1, ht, if_neg, Bool.false_eq_true, not_false_iff, List.mem_cons] at hx
        rcases hx with rfl | hx
        · exact Or.inl (by simp)
        · rcases ih cs x hx with h1 | h1
          · exact Or.inl (by simp [h1])
          · exact Or.inr h1

theorem skipBf_suffix (m : List Char) : skipBf m <:+ m :=
  (List.dropWhile_suffix isWs).trans (List.drop_suffix 3 m)

theorem skipIt_suffix (m : List Char) : skipIt m <:+ m :=
  (List.dropWhile_suffix isWs).trans (List.drop_suffix 3 m)

theorem skipMathSup_suffix (m : List Char) : skipMathSup m <:+ m := by
  unfold skipMathSup
  split
  · exact (List.suffix_cons _ _).trans ((List.suffix_cons _ _).trans
      ((List.suffix_cons _ _).trans (List.suffix_cons _ _)))
  · exact (List.drop_suffix 1 _).trans
      ((List.dropWhile_suffix isDigitC).trans
        ((List.suffix_cons _ _).trans (List.suffix_cons _ _)))
  · exact List.suffix_refl _

theorem skipSup_suffix (m : List Char) : skipSup m <:+ m := by
  unfold skipSup
  split
  · exact (List.suffix_cons _ _).trans (List.suffix_cons _ _)
  · exact (List.dropWhile_suffix isDigitC).trans (List.suffix_cons _ _)
  · exact List.suffix_refl _

theorem skipWs_suffix (m : List Char) : skipWs m <:+ m := by
  unfold skipWs
  split
  · exact (List.dropWhile_suffix isWs).trans (List.suffix_cons _ _)
  · exact List.suffix_refl _

theorem testBf_mem {m : List Char} (h : testBf m = true) : '\\' ∈ m := by
  unfold testBf at h
  split at h
  · simp
  · simp at h

theorem testIt_mem {m : List Char} (h : testIt m = true) : '\\' ∈ m := by
  unfold testIt at h
  split at h
  · simp
  · simp at h

theorem testMathSup_mem {m : List Char} (h : testMathSup m = true) : '^' ∈ m := by
  unfold testMathSup at h
  split at h
  · simp
  · simp
  · simp at h

theorem testSup_mem {m : List Char} (h : testSup m = true) : '^' ∈ m := by
  unfold testSup at h
  split at h
  · simp
  · simp
  · simp at h

theorem replaceWith_id {pat repl l : List Char} (hp : '\\' ∈ pat) (h : '\\' ∉ l) :
    replaceWith pat repl l = l := by
  apply sub1_id
  intro m hm
  by_contra hb
  have hb2 : pat.isPrefixOf m = true := by
    simpa using hb
  exact h (hm.subset (isPrefixOf_mem hb2 hp))

theorem rmBf_id {l : List Char} (h : '\\' ∉ l) : rmBf l = l := by
  apply sub1_id
  intro m hm
  by_contra hb
  exact h (hm.subset (testBf_mem (by simpa using hb)))

theorem rmIt_id {l : List Char} (h : '\\' ∉ l) : rmIt l = l := by
  apply sub1_id
  intro m hm
  by_contra hb
  exact h (hm.subset (testIt_mem (by simpa using hb)))

theorem rmMathSup_id {l : List Char} (h : '^' ∉ l) : rmMathSup l = l := by
  apply sub1_id
  intro m hm
  by_contra hb
  exact h (hm.subset (testMathSup_mem (by simpa using hb)))

theorem rmSup_id {l : List Char} (h : '^' ∉ l) : rmSup l = l := by
  apply sub1_id
  intro m hm
  by_contra hb
  exact h (hm.subset (testSup_mem (by simpa using hb)))

theorem rmBraces_id {l : List Char} (h1 : '\x7b' ∉ l) (h2 : '\x7d' ∉ l) :
    rmBraces l = l := by
  apply List.filter_eq_self.mpr
  intro a ha
  have g1 : a ≠ '\x7b' := fun he => h1 (he ▸ ha)
  have g2 : a ≠ '\x7d' := fun he => h2 (he ▸ ha)
  simp [g1, g2]

theorem rmBackslash_id {l : List Char} (h : '\\' ∉ l) : rmBackslash l = l := by
  apply List.filter_eq_self.mpr
  intro a ha
  have g : a ≠ '\\' := fun he => h (he ▸ ha)
  simp [g]

theorem rmBf_subset {l : List Char} : ∀ x ∈ rmBf l, x ∈ l := by
  intro x hx
  rcases sub1_subset testBf skipBf [] skipBf_suffix l.length l x hx with h | h
  · exact h
  · simp at h

theorem rmIt_subset {l : List Char} : ∀ x ∈ rmIt l, x ∈ l := by
  intro x hx
  rcases sub1_subset testIt skipIt [] skipIt_suffix l.length l x hx with h | h
  · exact h
  · simp at h

theorem replaceWith_mem {pat repl l : List Char} {x : Char}
    (hx : x ∈ replaceWith pat repl l) : x ∈ l ∨ x ∈ repl :=
  sub1_subset _ _ repl (fun m => List.drop_suffix pat.length m) l.length l x hx

theorem rmMathSup_subset {l : List Char} : ∀ x ∈ rmMathSup l, x ∈ l := by
  intro x hx
  rcases sub1_subset testMathSup skipMathSup [] skipMathSup_suffix l.length l x hx with h | h
  · exact h
  · simp at h

theorem rmSup_subset {l : List Char} : ∀ x ∈ rmSup l, x ∈ l := by
  intro x hx
  rcases sub1_subset testSup skipSup [] skipSup_suffix l.length l x hx with h | h
  · exact h
  · simp at h

theorem collapseWs_mem {l : List Char} {x : Char} (hx : x ∈ collapseWs l) :
    x ∈ l ∨ x = ' ' := by
  rcases sub1_subset testWs skipWs [' '] skipWs_suffix l.length l x hx with h | h
  · exact Or.inl h
  · simp at h
    exact Or.inr h

theorem pyStrip_isPart (l : List Char) : pyStrip l <:+: l := by
  unfold pyStrip
  have h1 : l.dropWhile isWs <:+ l := List.dropWhile_suffix isWs
  have h2 : (l.dropWhile isWs).reverse.dropWhile isWs <:+ (l.dropWhile isWs).reverse :=
    List.dropWhile_suffix isWs
  have h3 : ((l.dropWhile isWs).reverse.dropWhile isWs).reverse <+: l.dropWhile isWs := by
    have := List.reverse_prefix.mpr h2
    simpa using this
  exact h3.isInfix.trans h1.isInfix

theorem pyStrip_subset {l : List Char} : ∀ x ∈ pyStrip l, x ∈ l :=
  fun _ hx => (pyStrip_isPart l).subset hx

/-- A string in collapsed whitespace form: every whitespace character is a
single space and no two adjacent characters are both whitespace. -/
def WsOk (l : List Char) : Prop :=
  (∀ c ∈ l, isWs c = true → c = ' ') ∧
  List.Chain' (fun a b => ¬(isWs a = true ∧ isWs b = true)) l

theorem collapseGo_head (n : Nat) (m : List Char)
    (hm : ∀ d, m.head? = some d → isWs d = false) :
    ∀ d, (sub1 testWs skipWs [' '] n m).head? = some d → isWs d = false := by
  cases n with
  | zero => exact hm
  | succ n =>
    cases m with
    | nil => intro d hd; simp [sub1] at hd
    | cons c cs =>
      have hc : isWs c = false := hm c rfl
      have ht : testWs (c :: cs) = false := by simp [testWs, hc]
      intro d hd
      simp only [sub1, ht, Bool.false_eq_true, if_neg, not_false_iff, List.head?_cons,
        Option.some.injEq] at hd
      rw [← hd]
      exact hc

theorem collapseGo_wsOk (n : Nat) (l : List Char) (hn : l.length ≤ n) :
    WsOk (sub1 testWs skipWs [' '] n l) := by
  induction n generalizing l with
  | zero =>
    have : l = [] := by
      cases l with
      | nil => rfl
      | cons c cs => simp at hn
    subst this
    exact ⟨by simp [sub1], by simp [sub1]⟩
  | succ n ih =>
    cases l with
    | nil => exact ⟨by simp [sub1], by simp [sub1]⟩
    | cons c cs =>
      by_cases hc : isWs c
      · have ht : testWs (c :: cs) = true := by simp [testWs, hc]
        have hm : (cs.dropWhile isWs).length ≤ n := by
          have h1 := length_dropWhile_le isWs cs
          simp at hn
          omega
        have hrest := ih (cs.dropWhile isWs) hm
        have hhead := collapseGo_head n (cs.dropWhile isWs) (dropWhile_head_no isWs cs)
        have step : sub1 testWs skipWs [' '] (n + 1) (c :: cs) =
            ' ' :: sub1 testWs skipWs [' '] n (cs.dropWhile isWs) := by
          simp [sub1, ht, skipWs]
        rw [step]
        constructor
        · intro x hx hwx
          rcases List.mem_cons.mp hx with rfl | hx2
          · rfl
          · exact hrest.1 x hx2 hwx
        · refine List.chain'_cons'.mpr ⟨?_, hrest.2⟩
          intro h hh
          intro hcon
          rw [hhead h hh] at hcon
          simp at hcon
      · have ht : testWs (c :: cs) = false := by simp [testWs, hc]
        have hm : cs.length ≤ n := by simp at hn; omega
        have hrest := ih cs hm
        have step : sub1 testWs skipWs [' '] (n + 1) (c :: cs) =
            c :: sub1 testWs skipWs [' '] n cs := by
          simp [sub1, ht]
        rw [step]
        constructor
        · intro x hx hwx
          rcases List.mem_cons.mp hx with rfl | hx2
          · rw [hwx] at hc
            simp at hc
          · exact hrest.1 x hx2 hwx
        · refine List.chain'_cons'.mpr ⟨?_, hrest.2⟩
          intro h _
          intro hcon
          exact hc hcon.1

theorem collapseGo_fix (n : Nat) (l : List Char) (h : WsOk l) :
    sub1 testWs skipWs [' '] n l = l := by
  induction n generalizing l with
  | zero => rfl
  | succ n ih =>
    cases l with
    | nil => rfl
    | cons c cs =>
      rcases h with ⟨hmem, hch⟩
      by_cases hc : isWs c
      · have hsp : c = ' ' := hmem c (by simp) hc
        have ht : testWs (c :: cs) = true := by simp [testWs, hc]
        have hdw : cs.dropWhile isWs = cs := by
          cases cs with
          | nil => rfl
          | cons d ds =>
            have hnd : ¬(isWs c = true ∧ isWs d = true) :=
              (List.chain'_cons.mp hch).1
            have hdno : isWs d = false := by
              by_contra hdd
              exact hnd ⟨hc, by simpa using hdd⟩
            simp [List.dropWhile_cons, hdno]
        have step : sub1 testWs skipWs [' '] (n + 1) (c :: cs) =
            ' ' :: sub1 testWs skipWs [' '] n (cs.dropWhile isWs) := by
          simp [sub1, ht, skipWs]
        rw [step, hdw, ih cs ⟨fun x hx => hmem x (by simp [hx]), hch.tail⟩, hsp]
      · have ht : testWs (c :: cs) = false := by simp [testWs, hc]
        have step : sub1 testWs skipWs [' '] (n + 1) (c :: cs) =
            c :: sub1 testWs skipWs [' '] n cs := by
          simp [sub1, ht]
        rw [step, ih cs ⟨fun x hx => hmem x (by simp [hx]), hch.tail⟩]

theorem collapseWs_wsOk (l : List Char) : WsOk (collapseWs l) :=
  collapseGo_wsOk l.length l le_rfl

theorem collapseWs_id {l : List Char} (h : WsOk l) : collapseWs l = l :=
  collapseGo_fix l.length l h

theorem pyStrip_head (l : List Char) :
    ∀ d, (pyStrip l).head? = some d → isWs d = false := by
  intro d hd
  unfold pyStrip at hd
  set a := l.dropWhile isWs with ha
  set s := a.reverse.dropWhile isWs with hs
  rcases hrev : s.reverse with _ | ⟨x, xs⟩
  · rw [hrev] at hd
    simp at hd
  · rw [hrev] at hd
    simp at hd
    have hpre : s.reverse <+: a := by
      have h2 : s <:+ a.reverse := List.dropWhile_suffix isWs
      have := List.reverse_prefix.mpr h2
      simpa using this
    rcases hpre with ⟨t, ht⟩
    rw [hrev] at ht
    have hhead : a.head? = some x := by
      rw [← ht]
      simp
    rw [← hd]
    exact dropWhile_head_no isWs l x hhead

theorem pyStrip_last (l : List Char) :
    ∀ d, (pyStrip l).getLast? = some d → isWs d = false := by
  intro d hd
  unfold pyStrip at hd
  rw [List.getLast?_reverse] at hd
  exact dropWhile_head_no isWs _ d hd

theorem chain_of_part {R : Char → Char → Prop} {l m : List Char}
    (h : List.Chain' R m) (hp : l <:+: m) : List.Chain' R l := by
  rcases hp with ⟨s, t, rfl⟩
  rw [List.append_assoc] at h
  exact (List.chain'_append.mp ((List.chain'_append.mp h).2.1)).1

theorem pyStrip_wsOk {l : List Char} (h : WsOk l) : WsOk (pyStrip l) :=
  ⟨fun c hc => h.1 c (pyStrip_subset c hc), chain_of_part h.2 (pyStrip_isPart l)⟩

theorem pyStrip_id {l : List Char}
    (hh : ∀ d, l.head? = some d → isWs d = false)
    (hl : ∀ d, l.getLast? = some d → isWs d = false) :
    pyStrip l = l := by
  unfold pyStrip
  have h1 : l.dropWhile isWs = l := by
    cases l with
    | nil => rfl
    | cons c cs => simp [List.dropWhile_cons, hh c rfl]
  rw [h1]
  have h2 : l.reverse.dropWhile isWs = l.reverse := by
    rcases hrev : l.reverse with _ | ⟨x, xs⟩
    · rfl
    · have hx : l.getLast? = some x := by
        rw [← List.head?_reverse, hrev]
        rfl
      rw [List.dropWhile_cons, hl x hx]
      simp
  rw [h2, List.reverse_reverse]

theorem clean_tex_no_bs (l : List Char) : '\\' ∉ clean_tex l := by
  intro hmem
  unfold clean_tex at hmem
  have h1 := pyStrip_subset _ hmem
  rcases collapseWs_mem h1 with h2 | h2
  · have h3 := List.mem_filter.mp h2
    simp at h3
  · simp at h2

theorem clean_tex_no_brace (l : List Char) {x : Char}
    (hx : x = '\x7b' ∨ x = '\x7d') : x ∉ clean_tex l := by
  intro hmem
  unfold clean_tex at hmem
  have h1 := pyStrip_subset _ hmem
  rcases collapseWs_mem h1 with h2 | h2
  · have h3 := List.filter_subset' _ h2
    have h4 := rmSup_subset _ h3
    have h5 := rmMathSup_subset _ h4
    have h6 := List.mem_filter.mp h5
    rcases hx with rfl | rfl
    · simp at h6
    · simp at h6
  · rcases hx with rfl | rfl
    · simp at h2
    · simp at h2

theorem clean_tex_mem {l : List Char} {x : Char} (hx : x ∈ clean_tex l) :
    x ∈ l ∨ x = '†' ∨ x = ' ' := by
  unfold clean_tex at hx
  have h1 := pyStrip_subset _ hx
  rcases collapseWs_mem h1 with h2 | h2
  · have h3 := List.filter_subset' _ h2
    have h4 := rmSup_subset _ h3
    have h5 := rmMathSup_subset _ h4
    have h6 := List.filter_subset' _ h5
    rcases replaceWith_mem h6 with h7 | h7
    · rcases replaceWith_mem h7 with h8 | h8
      · rcases replaceWith_mem h8 with h9 | h9
        · rcases replaceWith_mem h9 with h10 | h10
          · exact Or.inl (rmBf_subset _ (rmIt_subset _ h10))
          · rw [show ([] : List Char) = [] from rfl] at h10
            simp at h10
        · rw [show str "†" = ['†'] from rfl] at h9
          simp at h9
          exact Or.inr (Or.inl h9)
      · rw [show str "†" = ['†'] from rfl] at h8
        simp at h8
        exact Or.inr (Or.inl h8)
    · rw [show str "†" = ['†'] from rfl] at h7
      simp at h7
      exact Or.inr (Or.inl h7)
  · exact Or.inr (Or.inr h2)

theorem clean_tex_wsOk (l : List Char) : WsOk (clean_tex l) := by
  unfold clean_tex
  exact pyStrip_wsOk (collapseWs_wsOk _)

theorem clean_tex_head (l : List Char) :
    ∀ d, (clean_tex l).head? = some d → isWs d = false := by
  unfold clean_tex
  exact pyStrip_head _

theorem clean_tex_last (l : List Char) :
    ∀ d, (clean_tex l).getLast? = some d → isWs d = false := by
  unfold clean_tex
  exact pyStrip_last _

theorem rmTextsl_id {l : List Char} (h : '\\' ∉ l) : rmTextsl l = l := by
  unfold rmTextsl replaceAll
  exact replaceWith_id (by decide) h

theorem rmDag1_id {l : List Char} (h : '\\' ∉ l) : rmDag1 l = l := by
  unfold rmDag1
  exact replaceWith_id (by decide) h

theorem rmDag2_id {l : List Char} (h : '\\' ∉ l) : rmDag2 l = l := by
  unfold rmDag2
  exact replaceWith_id (by decide) h

theorem rmDag3_id {l : List Char} (h : '\\' ∉ l) : rmDag3 l = l := by
  unfold rmDag3
  exact replaceWith_id (by decide) h

theorem clean_tex_fix {y : List Char} (hbs : '\\' ∉ y) (hob : '\x7b' ∉ y)
    (hcb : '\x7d' ∉ y) (hcaret : '^' ∉ y) (hws : WsOk y)
    (hh : ∀ d, y.head? = some d → isWs d = false)
    (hl : ∀ d, y.getLast? = some d → isWs d = false) :
    clean_tex y = y := by
  unfold clean_tex
  rw [rmBf_id hbs, rmIt_id hbs, rmTextsl_id hbs, rmDag1_id hbs, rmDag2_id hbs,
    rmDag3_id hbs, rmBraces_id hob hcb, rmMathSup_id hcaret, rmSup_id hcaret,
    rmBackslash_id hbs, collapseWs_id hws, pyStrip_id hh hl]

/-! Lemmas about the brace-argument extraction loop. -/

theorem extractLoop_full (l : List Char) (d : Int) (b : Bool) (cur : List Char)
    (args : List (List Char)) (h : 3 ≤ args.length) :
    extractLoop l d b cur args = ⟨args, l, d⟩ := by
  cases l with
  | nil => rfl
  | cons c cs => simp [extractLoop, h]

theorem extractLoop_le (l : List Char) :
    ∀ (d : Int) (b : Bool) (cur : List Char) (args : List (List Char)),
      args.length ≤ 3 → (extractLoop l d b cur args).args.length ≤ 3 := by
  induction l with
  | nil => intro d b cur args h; exact h
  | cons c cs ih =>
    intro d b cur args h
    by_cases h3 : 3 ≤ args.length
    · rw [extractLoop_full _ _ _ _ _ h3]
      exact h
    · have hlen : (args ++ [pyStrip cur]).length ≤ 3 := by
        simp only [List.length_append, List.length_cons, List.length_nil]
        omega
      simp only [extractLoop, if_neg h3]
      split_ifs <;>
        first
        | exact ih _ _ _ _ h
        | exact ih _ _ _ _ hlen

theorem extractLoop_depth (l : List Char) :
    ∀ (d : Int) (b : Bool) (cur : List Char) (args : List (List Char)),
      args.length < 3 →
      (extractLoop l d b cur args).args.length < 3 ∨
        (extractLoop l d b cur args).depth = 0 := by
  induction l with
  | nil => intro d b cur args h; exact Or.inl h
  | cons c cs ih =>
    intro d b cur args h
    have h3 : ¬ 3 ≤ args.length := by omega
    simp only [extractLoop, if_neg h3]
    split_ifs with hc hd0 hcr hdm
    · exact ih _ _ _ _ h
    · exact ih _ _ _ _ h
    · by_cases hlt : (args ++ [pyStrip cur]).length < 3
      · exact ih _ _ _ _ hlt
      · have hge : 3 ≤ (args ++ [pyStrip cur]).length := by omega
        rw [extractLoop_full _ _ _ _ _ hge]
        exact Or.inr hdm
    · exact ih _ _ _ _ h
    · exact ih _ _ _ _ h
    · exact ih _ _ _ _ h

/-! Unfolding equations for the per-item pipeline. -/

theorem processItem_eq (t raw : List Char) :
    processItem t raw =
      if (itemStripped raw).isEmpty then ⟨t, none, []⟩
      else
        match (itemExtract raw).args with
        | a0 :: a1 :: a2 :: _ =>
          ⟨nextType t raw,
           some (mkRecord (scanStart (itemStripped raw)).1 a0 a1 a2 (itemExtract raw).tail t),
           []⟩
        | _ =>
          ⟨nextType t raw, none,
           [str "Skipping malformed item: " ++ (itemStripped raw).take 50 ++ str "..."]⟩ := rfl

theorem parseItems_cons (x : List Char) (xs : List (List Char)) (t : List Char) :
    parseItems (x :: xs) t =
      ⟨(processItem t x).record.toList ++ (parseItems xs (processItem t x).state).recs,
       (processItem t x).logs ++ (parseItems xs (processItem t x).state).logs⟩ := rfl

theorem processItem_spec (t raw : List Char) :
    (processItem t raw).record = none ∨
    (∃ isNew a0 a1 a2 tl,
      (processItem t raw).record = some (mkRecord isNew a0 a1 a2 tl t) ∧
      (processItem t raw).state = nextType t raw) := by
  rw [processItem_eq]
  split
  · exact Or.inl rfl
  · split
    · exact Or.inr ⟨_, _, _, _, _, rfl, rfl⟩
    · exact Or.inl rfl

theorem mkRecord_type (isNew : Bool) (a0 a1 a2 tl t : List Char) :
    (mkRecord isNew a0 a1 a2 tl t).type = t := rfl

theorem mkRecord_title (isNew : Bool) (a0 a1 a2 tl t : List Char) :
    (mkRecord isNew a0 a1 a2 tl t).title = clean_tex (if isNew then a1 else a0) := by
  simp only [mkRecord]

theorem mkRecord_authors (isNew : Bool) (a0 a1 a2 tl t : List Char) :
    (mkRecord isNew a0 a1 a2 tl t).authors = clean_tex (if isNew then a0 else a1) := by
  simp only [mkRecord]

theorem mkRecord_venue (isNew : Bool) (a0 a1 a2 tl t : List Char) :
    (mkRecord isNew a0 a1 a2 tl t).venue = clean_tex a2 := by
  simp only [mkRecord]

theorem containsSub_false_of_bs {m s : List Char} (hm : '\\' ∈ m) :
    containsSub m (clean_tex s) = false := by
  by_contra hb
  have h1 : containsSub m (clean_tex s) = true := by simpa using hb
  exact clean_tex_no_bs s (containsSub_subset h1 '\\' hm)

/-! Lemmas about the descending sort. -/

theorem insertDesc_perm (x : Rec) (l : List Rec) : (insertDesc x l).Perm (x :: l) := by
  induction l with
  | nil => exact List.Perm.refl _
  | cons y ys ih =>
    unfold insertDesc
    split_ifs with h
    · exact (ih.cons y).trans (List.Perm.swap x y ys)
    · exact List.Perm.refl _

theorem sortYearDesc_perm (l : List Rec) : (sortYearDesc l).Perm l := by
  induction l with
  | nil => exact List.Perm.refl _
  | cons x xs ih =>
    unfold sortYearDesc
    exact (insertDesc_perm x (sortYearDesc xs)).trans (ih.cons x)

theorem insertDesc_pairwise (x : Rec) (l : List Rec)
    (h : l.Pairwise (fun a b => b.year ≤ a.year)) :
    (insertDesc x l).Pairwise (fun a b => b.year ≤ a.year) := by
  induction l with
  | nil => simp [insertDesc]
  | cons y ys ih =>
    rcases List.pairwise_cons.mp h with ⟨hy, hys⟩
    unfold insertDesc
    split_ifs with hle
    · refine List.pairwise_cons.mpr ⟨?_, ih hys⟩
      intro z hz
      rcases List.mem_cons.mp ((insertDesc_perm x ys).mem_iff.mp hz) with rfl | hz2
      · exact hle
      · exact hy z hz2
    · refine List.pairwise_cons.mpr ⟨?_, h⟩
      intro z hz
      rcases List.mem_cons.mp hz with rfl | hz2
      · omega
      · have := hy z hz2
        omega

theorem sortYearDesc_pairwise (l : List Rec) :
    (sortYearDesc l).Pairwise (fun a b => b.year ≤ a.year) := by
  induction l with
  | nil => simp [sortYearDesc]
  | cons x xs ih =>
    unfold sortYearDesc
    exact insertDesc_pairwise x (sortYearDesc xs) ih

/-! Lemmas about the DOI search. -/

theorem doiSearch_none {l : List Char} (h : hasDoiColon l = false) :
    doiSearch l = [] := by
  induction l with
  | nil => rfl
  | cons c cs ih =>
    unfold hasDoiColon at h
    rcases Bool.or_eq_false_iff.mp h with ⟨h1, h2⟩
    unfold doiSearch
    rw [if_neg (by simp [h1])]
    exact ih h2

theorem filter_length_split (f : Rec → Bool) (l : List Rec) :
    (l.filter f).length + (l.filter (fun p => !f p)).length = l.length := by
  induction l with
  | nil => simp
  | cons p ps ih =>
    by_cases hp : f p
    · simp [List.filter_cons, hp]
      omega
    · simp [List.filter_cons, hp]
      omega

/-! Claim theorems. -/

/-- C1: an item span holding a Title-first macro with exactly 3 well-balanced
brace arguments, `\mypub{A Nested {Complex} Title}{Jane Doe}{Cell (2020)}`,
parses to title "A Nested Complex Title", authors "Jane Doe", venue
"Cell (2020)", year 2020: nested inner braces are kept by the extractor and
removed by normalization, args 0/1 map to title/authors for the Title-first
family, and the year comes from the parenthesized 4-digit group of the
venue. -/
theorem c1_round_trip :
    processItem (str "journal")
      (str "\\mypub\x7bA Nested \x7bComplex\x7d Title\x7d\x7bJane Doe\x7d\x7bCell (2020)\x7d") =
    ⟨str "journal",
     some { year := 2020, title := str "A Nested Complex Title",
            authors := str "Jane Doe", venue := str "Cell (2020)",
            doi := [], note := [], type := str "journal" },
     []⟩ := by decide

/-- C4 counterexample: the normalizer is not idempotent on the input `^\*`:
the first pass deletes the backslash, creating the superscript pattern `^*`,
which only the second pass deletes. -/
theorem c4_counterexample :
    clean_tex (clean_tex (str "^\\*")) ≠ clean_tex (str "^\\*") := by decide

/-- C4 (amended): the normalizer is idempotent on every input containing no
caret character; with carets, deleting characters that separate a caret from
a following star or digit run can create a fresh superscript pattern that
only the second pass removes. -/
theorem c4_normalize_idem (l : List Char) (h : '^' ∉ l) :
    clean_tex (clean_tex l) = clean_tex l := by
  apply clean_tex_fix
  · exact clean_tex_no_bs l
  · exact clean_tex_no_brace l (Or.inl rfl)
  · exact clean_tex_no_brace l (Or.inr rfl)
  · intro hc
    rcases clean_tex_mem hc with h1 | h1 | h1
    · exact h h1
    · exact absurd h1 (by decide)
    · exact absurd h1 (by decide)
  · exact clean_tex_wsOk l
  · exact clean_tex_head l
  · exact clean_tex_last l

/-- C4 witness: idempotence at a concrete caret-free input. -/
theorem c4_witness :
    '^' ∉ str " \\bf A \x7bB\x7d " ∧
    clean_tex (clean_tex (str " \\bf A \x7bB\x7d ")) = clean_tex (str " \\bf A \x7bB\x7d ") :=
  ⟨by decide, c4_normalize_idem _ (by decide)⟩

/-- C5 counterexample: the venue "in press (0000)" contains a parenthesized
4-digit group whose value is 0, so per the claim the year should be that
number (0); the code instead applies the in-press override and returns 2025,
because the override keys on the resolved value being 0, not on no group
having been found. -/
theorem c5_counterexample :
    yearSearch (str "in press (0000)") = some 0 ∧
    extractYear (str "in press (0000)") [] = 2025 := by decide

/-- C5 (amended): year extraction takes the parenthesized 4-digit group of
the normalized venue, else of the tail, else 0 — and whenever the venue
contains "accepted" or "in press" (case-insensitively) and the year resolved
so far equals 0 (either no group was found or the group read as 0000), the
year becomes the fallback 2025. -/
theorem c5_year_extraction (venue tail : List Char) :
    (∀ y, yearSearch venue = some y → ¬(acceptedMark venue = true ∧ y = 0) →
      extractYear venue tail = y)
    ∧ (∀ y, yearSearch venue = none → yearSearch tail = some y →
      ¬(acceptedMark venue = true ∧ y = 0) → extractYear venue tail = y)
    ∧ (yearSearch venue = none → yearSearch tail = none →
      acceptedMark venue = false → extractYear venue tail = 0)
    ∧ (yearSearch venue = none → yearSearch tail = none →
      acceptedMark venue = true → extractYear venue tail = 2025)
    ∧ (∀ y, yearSearch venue = some y → acceptedMark venue = true → y = 0 →
      extractYear venue tail = 2025)
    ∧ (∀ y, yearSearch venue = none → yearSearch tail = some y →
      acceptedMark venue = true → y = 0 → extractYear venue tail = 2025) := by
  refine ⟨?_, ?_, ?_, ?_, ?_, ?_⟩
  · intro y hy hn
    simp only [extractYear, hy]
    exact if_neg hn
  · intro y hv ht hn
    simp only [extractYear, hv, ht, Option.getD_some]
    exact if_neg hn
  · intro hv ht hm
    simp only [extractYear, hv, ht, Option.getD_none]
    rw [if_neg]
    intro hcon
    rw [hm] at hcon
    simp at hcon
  · intro hv ht hm
    simp [extractYear, hv, ht, hm]
  · intro y hy hm hy0
    simp only [extractYear, hy]
    exact if_pos ⟨hm, hy0⟩
  · intro y hv ht hm hy0
    simp only [extractYear, hv, ht, Option.getD_some]
    exact if_pos ⟨hm, hy0⟩

/-- C5 witness: the behaviours at concrete inputs, including the fallback
taken when the tail's parenthesized group reads as 0000. -/
theorem c5_witness :
    extractYear (str "Cell (2020)") [] = 2020 ∧
    extractYear (str "Nature") (str " (2019)") = 2019 ∧
    extractYear (str "accepted") [] = 2025 ∧
    extractYear (str "accepted") (str " (0000)") = 2025 :=
  ⟨(c5_year_extraction (str "Cell (2020)") []).1 2020 (by decide) (by decide),
   (c5_year_extraction (str "Nature") (str " (2019)")).2.1 2019 (by decide) (by decide)
     (by decide),
   (c5_year_extraction (str "accepted") []).2.2.2.1 (by decide) (by decide) (by decide),
   (c5_year_extraction (str "accepted") (str " (0000)")).2.2.2.2.2 0 (by decide)
     (by decide) (by decide) (by decide)⟩

/-- C6 counterexample: for a tail whose DOI token ends in two right braces
the code strips both (Python rstrip removes every trailing brace), while the
claim prescribes stripping exactly one. -/
theorem c6_counterexample :
    doiSearch (str "doi: 10.1/ab\x7d\x7d") = str "10.1/ab" ∧
    doiSearch (str "doi: 10.1/ab\x7d\x7d") ≠ str "10.1/ab\x7d" := by decide

/-- C6 (amended): the doi field is the first non-whitespace token following a
case-insensitive doi: marker anywhere in the item's tail, with every trailing
right brace stripped; with no marker anywhere (the empty tail included) the
result is the empty string, and the extractor is total. -/
theorem c6_doi_extraction :
    doiSearch [] = []
    ∧ (∀ l, hasDoiColon l = false → doiSearch l = [])
    ∧ (∀ pre a b c ws tok rest,
        (a = 'd' ∨ a = 'D') → (b = 'o' ∨ b = 'O') → (c = 'i' ∨ c = 'I') →
        (∀ x ∈ ws, isWs x = true) → tok ≠ [] →
        (∀ x ∈ tok, isWs x = false) →
        (rest = [] ∨ ∃ r rs, rest = r :: rs ∧ isWs r = true) →
        noDoiBefore pre (a :: b :: c :: ':' :: (ws ++ (tok ++ rest))) = true →
        doiSearch (pre ++ (a :: b :: c :: ':' :: (ws ++ (tok ++ rest)))) =
          rstripRB tok) := by
  refine ⟨rfl, fun l h => doiSearch_none h, ?_⟩
  intro pre a b c ws tok rest ha hb hc hws htok hns hrest
  obtain ⟨t, ts, rfl⟩ : ∃ x xs, tok = x :: xs := by
    cases tok with
    | nil => exact absurd rfl htok
    | cons x xs => exact ⟨x, xs, rfl⟩
  have hts : isWs t = false := hns t (by simp)
  have hdw : (ws ++ ((t :: ts) ++ rest)).dropWhile isWs = (t :: ts) ++ rest := by
    rw [dropWhile_append_all hws, List.cons_append, List.dropWhile_cons, hts]
    simp
  have htw : ((t :: ts) ++ rest).takeWhile (fun ch => !(isWs ch)) = t :: ts := by
    apply takeWhile_append_of
    · intro x hx
      simp [hns x hx]
    · intro x xs hxs
      rcases hrest with rfl | ⟨d, ds, rfl, hd⟩
      · simp at hxs
      · injection hxs with e1 e2
        subst e1
        simp [hd]
  have hdh : isDoiHead (a :: b :: c :: ':' :: (ws ++ ((t :: ts) ++ rest))) = true := by
    rcases ha with rfl | rfl <;> rcases hb with rfl | rfl <;> rcases hc with rfl | rfl <;>
      rfl
  have hbase : doiSearch (a :: b :: c :: ':' :: (ws ++ ((t :: ts) ++ rest))) =
      rstripRB (t :: ts) := by
    unfold doiSearch
    rw [if_pos hdh]
    simp only [List.drop_succ_cons, List.drop_zero]
    rw [hdw, htw]
    simp
  induction pre with
  | nil =>
    intro _
    simpa using hbase
  | cons p ps ih =>
    intro hnob
    unfold noDoiBefore at hnob
    rcases Bool.and_eq_true_iff.mp hnob with ⟨h1, h2⟩
    rw [Bool.not_eq_true'] at h1
    simp only [List.cons_append] at h1
    rw [List.cons_append]
    unfold doiSearch
    rw [if_neg (by simp [h1])]
    exact ih h2

/-- C6 witness: the amended extraction at a concrete tail, with an uppercase
marker preceded by other text and a token ending in two right braces. -/
theorem c6_witness : doiSearch (str "see DOI: 10.1/ab\x7d\x7d end") = str "10.1/ab" := by
  have h := (c6_doi_extraction).2.2 (str "see ") 'D' 'O' 'I' (str " ")
    (str "10.1/ab\x7d\x7d") (str " end") (Or.inr rfl) (Or.inr rfl) (Or.inr rfl)
    (by decide) (by decide) (by decide) (Or.inr ⟨' ', str "end", rfl, by decide⟩)
    (by decide)
  have he : str "see " ++ ('D' :: 'O' :: 'I' :: ':' ::
      (str " " ++ (str "10.1/ab\x7d\x7d" ++ str " end"))) =
      str "see DOI: 10.1/ab\x7d\x7d end" := by decide
  rw [he] at h
  rw [h]
  decide

/-- C8: for every input span the brace extractor is total and collects at
most 3 arguments; whenever the scan ends with nonzero depth (braces never
re-balanced) it has collected fewer than 3, and any item whose extraction
yields fewer than 3 arguments is routed to the skip path: no record is
emitted, and no other failure mode exists. -/
theorem c8_extractor_safe (l t raw : List Char) :
    (extractArgs l).args.length ≤ 3
    ∧ ((extractArgs l).depth ≠ 0 → (extractArgs l).args.length < 3)
    ∧ ((itemExtract raw).args.length < 3 → (processItem t raw).record = none) := by
  refine ⟨?_, ?_, ?_⟩
  · exact extractLoop_le _ _ _ _ _ (by simp)
  · intro hd
    rcases extractLoop_depth (scanStart l).2 0 false [] [] (by simp) with h | h
    · exact h
    · exact absurd h hd
  · intro hlt
    rw [processItem_eq]
    split
    · rfl
    · split
      · next a0 a1 a2 tl heq =>
        exfalso
        rw [heq] at hlt
        simp only [List.length_cons] at hlt
        omega
      · rfl

/-- C8 witness: an unbalanced span ends at depth 2 with no argument, and a
2-argument item yields no record. -/
theorem c8_witness :
    (extractArgs (str "\x7ba\x7bb")).args.length < 3 ∧
    (processItem (str "journal") (str "\\mypub\x7bx\x7d\x7by")).record = none :=
  ⟨(c8_extractor_safe (str "\x7ba\x7bb") (str "journal") (str "\\mypub\x7bx\x7d\x7by")).2.1
     (by decide),
   (c8_extractor_safe (str "\x7ba\x7bb") (str "journal") (str "\\mypub\x7bx\x7d\x7by")).2.2
     (by decide)⟩

/-- C10: an item span that contains the section-header marker but strips to
the empty string is skipped before the state update, so the pending switch
to "book" is silently lost and the following items keep the old state; a
whitespace-only span without a header is likewise skipped with the state
unchanged. -/
theorem c10_header_only_item (t x z : List Char) (rest : List (List Char))
    (_h1 : hasMarker x = true) (h2 : itemStripped x = [])
    (_h3 : hasMarker z = false) (h4 : itemStripped z = []) :
    (processItem t x = ⟨t, none, []⟩ ∧ parseItems (x :: rest) t = parseItems rest t)
    ∧ processItem t z = ⟨t, none, []⟩ := by
  have hx : processItem t x = ⟨t, none, []⟩ := by
    rw [processItem_eq, h2]
    simp
  have hz : processItem t z = ⟨t, none, []⟩ := by
    rw [processItem_eq, h4]
    simp
  refine ⟨⟨hx, ?_⟩, hz⟩
  rw [parseItems_cons, hx]
  simp

/-- The header-only span used as the C10 witness. -/
def c10x : List Char := str "\x7b\\bf Books \\& Chapters:\x7d \\vspace\x7b24pt\x7d"

/-- The whitespace-only span used as the C10 witness. -/
def c10z : List Char := str "   "

/-- C10 witness: the concrete header-only span is skipped with the state
left at "journal". -/
theorem c10_witness :
    processItem (str "journal") c10x = ⟨str "journal", none, []⟩ ∧
    parseItems [c10x] (str "journal") = parseItems [] (str "journal") ∧
    processItem (str "journal") c10z = ⟨str "journal", none, []⟩ := by
  have h := c10_header_only_item (str "journal") c10x c10z []
    (by decide) (by decide) (by decide) (by decide)
  exact ⟨h.1.1, h.1.2, h.2⟩

/-- C2: when item i's raw text contains the section-header marker and item
i+1's does not, the record emitted for item i carries the pre-transition
state, the record emitted for item i+1 carries the post-transition state
"book", the remaining items continue from "book", and neither the bolded
header string nor its boilerplate spacing commands (nor the bare detection
substring) appears in item i's title, authors, or venue. -/
theorem c2_section_transition (t x y : List Char) (rest : List (List Char)) (rx ry : Rec)
    (h1 : hasMarker x = true) (h2 : hasMarker y = false)
    (h3 : (processItem t x).record = some rx)
    (h4 : (processItem (str "book") y).record = some ry) :
    (parseItems (x :: y :: rest) t).recs = rx :: ry :: (parseItems rest (str "book")).recs
    ∧ rx.type = t ∧ ry.type = str "book"
    ∧ (∀ m ∈ [markerDetect, markerHeader, markerVspace, markerHspace],
        containsSub m rx.title = false ∧ containsSub m rx.authors = false ∧
        containsSub m rx.venue = false) := by
  rcases processItem_spec t x with hn | ⟨iN, a0, a1, a2, tl, hrec, hst⟩
  · rw [hn] at h3
    exact absurd h3 (by simp)
  rcases processItem_spec (str "book") y with hn2 | ⟨iN2, b0, b1, b2, tl2, hrec2, hst2⟩
  · rw [hn2] at h4
    exact absurd h4 (by simp)
  have hrx : rx = mkRecord iN a0 a1 a2 tl t := by
    rw [hrec] at h3
    exact (Option.some.inj h3).symm
  have hry : ry = mkRecord iN2 b0 b1 b2 tl2 (str "book") := by
    rw [hrec2] at h4
    exact (Option.some.inj h4).symm
  have hsx : (processItem t x).state = str "book" := by
    rw [hst]
    simp [nextType, h1]
  have hsy : (processItem (str "book") y).state = str "book" := by
    rw [hst2]
    simp [nextType, h2]
  refine ⟨?_, ?_, ?_, ?_⟩
  · rw [parseItems_cons, h3, hsx, parseItems_cons, h4, hsy]
    simp
  · rw [hrx, mkRecord_type]
  · rw [hry, mkRecord_type]
  · intro m hm
    have hmb : '\\' ∈ m := by
      simp only [List.mem_cons, List.not_mem_nil, or_false] at hm
      rcases hm with rfl | rfl | rfl | rfl <;> decide
    refine ⟨?_, ?_, ?_⟩
    · rw [hrx, mkRecord_title]
      exact containsSub_false_of_bs hmb
    · rw [hrx, mkRecord_authors]
      exact containsSub_false_of_bs hmb
    · rw [hrx, mkRecord_venue]
      exact containsSub_false_of_bs hmb

/-- The marker-carrying item used as the C2 witness. -/
def c2x : List Char :=
  str "\\mypub\x7bT\x7d\x7bA\x7d\x7bV (2001)\x7d \x7b\\bf Books \\& Chapters:\x7d"

/-- The plain item used as the C2 witness. -/
def c2y : List Char := str "\\mypub\x7bT2\x7d\x7bA2\x7d\x7bW (2002)\x7d"

/-- The record parsed from the C2 witness marker item. -/
def c2rx : Rec :=
  ⟨2001, str "T", str "A", str "V (2001)", [], [], str "journal"⟩

/-- The record parsed from the C2 witness plain item. -/
def c2ry : Rec :=
  ⟨2002, str "T2", str "A2", str "W (2002)", [], [], str "book"⟩

/-- C2 witness: the concrete transition pair. -/
theorem c2_witness :
    (parseItems [c2x, c2y] (str "journal")).recs = [c2rx, c2ry] ∧
    c2rx.type = str "journal" ∧ c2ry.type = str "book" := by
  have h := c2_section_transition (str "journal") c2x c2y [] c2rx c2ry
    (by decide) (by decide) (by decide) (by decide)
  refine ⟨?_, h.2.1, h.2.2.1⟩
  rw [h.1]
  rfl

/-- C3: an item span that strips to nonempty text but yields fewer than 3
balanced-brace arguments produces no record, a diagnostic carrying the item
text's first 50 characters is printed, the section state is still advanced
by that item's header (if any), and the remaining items are parsed from that
state: the batch continues. -/
theorem c3_malformed_item (t x : List Char) (rest : List (List Char))
    (h1 : itemStripped x ≠ []) (h2 : (itemExtract x).args.length < 3) :
    processItem t x =
      ⟨nextType t x, none,
       [str "Skipping malformed item: " ++ (itemStripped x).take 50 ++ str "..."]⟩
    ∧ parseItems (x :: rest) t =
      ⟨(parseItems rest (nextType t x)).recs,
       (str "Skipping malformed item: " ++ (itemStripped x).take 50 ++ str "...") ::
         (parseItems rest (nextType t x)).logs⟩ := by
  have hne : ¬((itemStripped x).isEmpty = true) := by
    simpa [List.isEmpty_iff] using h1
  have hp : processItem t x =
      ⟨nextType t x, none,
       [str "Skipping malformed item: " ++ (itemStripped x).take 50 ++ str "..."]⟩ := by
    rw [processItem_eq, if_neg hne]
    split
    · next a0 a1 a2 tl heq =>
      exfalso
      rw [heq] at h2
      simp only [List.length_cons] at h2
      omega
    · rfl
  refine ⟨hp, ?_⟩
  rw [parseItems_cons, hp]
  simp

/-- The malformed 2-argument item used as the C3 witness. -/
def c3x : List Char := str "\\mypub\x7bTitle\x7d\x7bAuthors\x7d"

/-- The well-formed follow-up item used as the C3 witness. -/
def c3y : List Char := str "\\mypub\x7bT\x7d\x7bA\x7d\x7bCell (2020)\x7d"

/-- C3 witness: the 2-argument item is skipped and the following item still
parses, in the correct state. -/
theorem c3_witness :
    (processItem (str "journal") c3x).record = none ∧
    (parseItems [c3x, c3y] (str "journal")).recs =
      (parseItems [c3y] (str "journal")).recs := by
  have h := c3_malformed_item (str "journal") c3x [c3y] (by decide) (by decide)
  have hnt : nextType (str "journal") c3x = str "journal" := by decide
  constructor
  · rw [h.1]
  · rw [h.2, hnt]

/-- C7: the assembler's two output orderings: file order is the identity
pass-through, and under the descending-by-year sort a record with year 0 is
never followed by a record with a nonzero year, so year-0 records sort
last. -/
theorem c7_orderings (recs : List Rec) :
    assembleOutput false recs = recs
    ∧ ∀ i j : Fin (assembleOutput true recs).length, i < j →
        ((assembleOutput true recs).get i).year = 0 →
        ((assembleOutput true recs).get j).year = 0 := by
  constructor
  · rfl
  · intro i j hij h0
    have hp : (assembleOutput true recs).Pairwise (fun a b => b.year ≤ a.year) := by
      show (sortYearDesc recs).Pairwise _
      exact sortYearDesc_pairwise recs
    have hle := List.pairwise_iff_get.mp hp i j hij
    omega

/-- The record list used as the C7 witness. -/
def c7recs : List Rec :=
  [⟨0, str "a", [], [], [], [], str "journal"⟩,
   ⟨0, str "b", [], [], [], [], str "journal"⟩]

/-- C7 witness: in the sorted output of an all-zero list, the record after a
year-0 record again has year 0. -/
theorem c7_witness : ((assembleOutput true c7recs).get ⟨1, by decide⟩).year = 0 :=
  (c7_orderings c7recs).2 ⟨0, by decide⟩ ⟨1, by decide⟩ (by decide) (by decide)

/-- Unfolding equation for the maintenance operation. -/
theorem clean_publications_eq (pubs : List Rec) :
    clean_publications pubs =
      ⟨sortYearDesc ((pubs.map updateTarget).filter (fun p => p.year != 0)),
       pubs.length,
       (pubs.filter (fun p => matchesTarget p && (p.year != 2025))).length,
       (sortYearDesc ((pubs.map updateTarget).filter (fun p => p.year != 0))).length,
       pubs.length -
         (sortYearDesc ((pubs.map updateTarget).filter (fun p => p.year != 0))).length⟩ := rfl

/-- C9: the maintenance operation sets year 2025 on exactly the records that
fuzzily match the target title and differ, counts exactly the changed ones,
drops precisely the post-update records with year 0, sorts the survivors
descending by year, and reports the original count, the final count, and the
number removed. -/
theorem c9_maintenance (pubs : List Rec) :
    (∀ q ∈ pubs.map updateTarget, matchesTarget q = true → q.year = 2025)
    ∧ (∀ p ∈ pubs, matchesTarget p = false → updateTarget p = p)
    ∧ (1 ≤ (clean_publications pubs).updatedCount ↔
        ∃ p ∈ pubs, matchesTarget p = true ∧ p.year ≠ 2025)
    ∧ (∀ q ∈ (clean_publications pubs).pubs, q.year ≠ 0)
    ∧ (∀ q ∈ pubs.map updateTarget, q.year ≠ 0 → q ∈ (clean_publications pubs).pubs)
    ∧ (∀ i j : Fin (clean_publications pubs).pubs.length, i < j →
        ((clean_publications pubs).pubs.get j).year ≤
          ((clean_publications pubs).pubs.get i).year)
    ∧ (clean_publications pubs).originalCount = pubs.length
    ∧ (clean_publications pubs).finalCount = (clean_publications pubs).pubs.length
    ∧ (clean_publications pubs).removedCount =
        ((pubs.map updateTarget).filter (fun p => p.year == 0)).length := by
  have hpubs : (clean_publications pubs).pubs =
      sortYearDesc ((pubs.map updateTarget).filter (fun p => p.year != 0)) := rfl
  refine ⟨?_, ?_, ?_, ?_, ?_, ?_, rfl, rfl, ?_⟩
  · intro q hq hm
    rcases List.mem_map.mp hq with ⟨p, hp, rfl⟩
    unfold updateTarget at hm ⊢
    split_ifs at hm ⊢ with hcond
    · rfl
    · by_contra hne
      exact hcond ⟨hm, hne⟩
  · intro p hp hm
    have hno : ¬(matchesTarget p = true ∧ p.year ≠ 2025) := by
      rintro ⟨hmt, _⟩
      rw [hm] at hmt
      exact Bool.false_ne_true hmt
    unfold updateTarget
    rw [if_neg hno]
  · constructor
    · intro hge
      have hne : pubs.filter (fun p => matchesTarget p && (p.year != 2025)) ≠ [] := by
        intro he
        rw [clean_publications_eq] at hge
        simp only at hge
        rw [he] at hge
        simp at hge
      rcases List.exists_mem_of_ne_nil _ hne with ⟨q, hq⟩
      rcases List.mem_filter.mp hq with ⟨hq1, hq2⟩
      simp only [Bool.and_eq_true, bne_iff_ne] at hq2
      exact ⟨q, hq1, hq2.1, hq2.2⟩
    · rintro ⟨p, hp, hmt, hyne⟩
      have hmem : p ∈ pubs.filter (fun p => matchesTarget p && (p.year != 2025)) :=
        List.mem_filter.mpr ⟨hp, by simp [hmt, hyne]⟩
      exact List.length_pos.mpr (List.ne_nil_of_mem hmem)
  · intro q hq
    rw [hpubs] at hq
    have hq2 := (sortYearDesc_perm _).mem_iff.mp hq
    rcases List.mem_filter.mp hq2 with ⟨_, hq3⟩
    simpa [bne_iff_ne] using hq3
  · intro q hq hz
    rw [hpubs]
    apply (sortYearDesc_perm _).mem_iff.mpr
    exact List.mem_filter.mpr ⟨hq, by simpa [bne_iff_ne] using hz⟩
  · intro i j hij
    have hp : ((clean_publications pubs).pubs).Pairwise (fun a b => b.year ≤ a.year) := by
      rw [hpubs]
      exact sortYearDesc_pairwise _
    exact List.pairwise_iff_get.mp hp i j hij
  · have hperm :=
      (sortYearDesc_perm ((pubs.map updateTarget).filter (fun p => p.year != 0))).length_eq
    have hsplit := filter_length_split (fun p => p.year != 0) (pubs.map updateTarget)
    have hmap : (pubs.map updateTarget).length = pubs.length := List.length_map _ _
    have hfun : ((pubs.map updateTarget).filter (fun p => !(p.year != 0))).length =
        ((pubs.map updateTarget).filter (fun p => p.year == 0)).length := by
      have : (fun p : Rec => !(p.year != 0)) = (fun p : Rec => p.year == 0) := by
        funext p
        simp [bne]
      rw [this]
    rw [clean_publications_eq]
    simp only
    omega

/-- The record list of the C9 witness, mirroring the spec example: a year-0
record, an ordinary 2019 record, and a record textually matching the target
title whose year is not yet 2025. -/
def c9pubs : List Rec :=
  [⟨0, str "stale", [], [], [], [], str "journal"⟩,
   ⟨2019, str "older paper", [], [], [], [], str "journal"⟩,
   ⟨2024, targetFrag, [], [], [], [], str "journal"⟩]

/-- C9 witness: the maintenance output on the example list is sorted
descending at the first two positions. -/
theorem c9_witness :
    ((clean_publications c9pubs).pubs.get ⟨1, by decide⟩).year ≤
      ((clean_publications c9pubs).pubs.get ⟨0, by decide⟩).year :=
  (c9_maintenance c9pubs).2.2.2.2.2.1 ⟨0, by decide⟩ ⟨1, by decide⟩ (by decide)

end LabPubs
